import Mathlib

/-!
Verification of the card-rectangle detection and cataloging pipeline of
`process_cards.py`.

The embedding works over exact rationals.  OpenCV primitives that only
produce the inputs of the logic under scrutiny (contour extraction,
thresholding, morphology) are abstracted: a detection strategy receives the
list of contours it would have extracted, where each contour is summarised
by the three quantities the source actually reads from it — its contour
area, its minimum-area rotated rectangle, and the contour area of the
integer box fitted to that rectangle.  A 4-point box is identified with the
rotated rectangle it was generated from (`cv2.minAreaRect` of
`cv2.boxPoints` of a rectangle recovers that rectangle).
-/

/-- A minimum-area rotated rectangle as used by the source:
center `(cx, cy)` and size `(w, h)` (the angle never matters for the
properties below). Mirrors `cv2.minAreaRect` results. -/
structure RRect where
  cx : ℚ
  cy : ℚ
  w : ℚ
  h : ℚ
  deriving DecidableEq

/-- A contour, summarised by the quantities the detection code reads from
it: `area = cv2.contourArea(contour)`, `rect = cv2.minAreaRect(contour)`,
and `boxArea = cv2.contourArea(np.int32(cv2.boxPoints(rect)))`. -/
structure Contour where
  area : ℚ
  rect : RRect
  boxArea : ℚ
  deriving DecidableEq

/-- `boxes_overlap` (process_cards.py lines 306-333): fit each box to a
rotated rectangle, then compare the absolute center displacement on each
axis against 0.7 times the sum of the corresponding half-extents. -/
def boxes_overlap (box1 box2 : RRect) : Bool :=
  let dx := |box1.cx - box2.cx|
  let dy := |box1.cy - box2.cy|
  let width1 := box1.w / 2
  let height1 := box1.h / 2
  let width2 := box2.w / 2
  let height2 := box2.h / 2
  decide (dx < (width1 + width2) * (7 / 10)) &&
    decide (dy < (height1 + height2) * (7 / 10))

/-- Aspect computation of the primary detector (lines 422-425):
`min(w,h)/max(w,h) if min(w,h) > 0 else 0`. -/
def primaryAspect (r : RRect) : ℚ :=
  if 0 < min r.w r.h then min r.w r.h / max r.w r.h else 0

/-- Aspect computation of both fallback detectors (lines 72-75 and
280-283): `min(w,h)/max(w,h) if max(w,h) > 0 else 0`. -/
def fallbackAspect (r : RRect) : ℚ :=
  if 0 < max r.w r.h then min r.w r.h / max r.w r.h else 0

/-- The raw aspect quantity the specification speaks about:
`min(w,h)/max(w,h)`. -/
def aspectOf (r : RRect) : ℚ :=
  min r.w r.h / max r.w r.h

/-- Acceptance test of the primary detector (lines 413-435): contour area
at least `min_area` and aspect in the band [0.65, 0.75]. -/
def primaryAccepts (min_area : ℚ) (c : Contour) : Bool :=
  if c.area < min_area then false
  else if (65 : ℚ) / 100 ≤ primaryAspect c.rect ∧ primaryAspect c.rect ≤ 75 / 100 then
    true
  else false

/-- Acceptance test of the morphology fallback (lines 63-93): contour area
at least `0.8 * min_area`, aspect in [0.63, 0.77], and not overlapping any
previously accepted box. -/
def morphAccepts (min_area : ℚ) (existing_boxes : List RRect) (c : Contour) : Bool :=
  if c.area < min_area * (8 / 10) then false
  else if ¬ ((63 : ℚ) / 100 ≤ fallbackAspect c.rect ∧ fallbackAspect c.rect ≤ 77 / 100) then
    false
  else ! existing_boxes.any (fun e => boxes_overlap c.rect e)

/-- Acceptance test of the contour-merge fallback's final filter
(lines 269-301): contour area at least `0.7 * min_area`, aspect in
[0.60, 0.80], and not overlapping any previously accepted box. -/
def mergeAccepts (min_area : ℚ) (existing_boxes : List RRect) (c : Contour) : Bool :=
  if c.area < min_area * (7 / 10) then false
  else if ¬ ((60 : ℚ) / 100 ≤ fallbackAspect c.rect ∧ fallbackAspect c.rect ≤ 80 / 100) then
    false
  else ! existing_boxes.any (fun e => boxes_overlap c.rect e)

/-- The primary detector's filtering loop (lines 412-435): each accepted
contour contributes `(cv2.contourArea(box), box)`. -/
def primaryFilter (min_area : ℚ) (contours : List Contour) : List (ℚ × RRect) :=
  contours.filterMap fun c =>
    if primaryAccepts min_area c then some (c.boxArea, c.rect) else none

/-- `find_rectangles_with_morphology` (lines 19-95), with the contours it
extracts from the morphologically closed image given as input. -/
def find_rectangles_with_morphology (min_area : ℚ) (existing_rectangles : List (ℚ × RRect))
    (contours : List Contour) : List (ℚ × RRect) :=
  let existing_boxes := existing_rectangles.map Prod.snd
  contours.filterMap fun c =>
    if morphAccepts min_area existing_boxes c then some (c.boxArea, c.rect) else none

/-- Final filter of `find_rectangles_with_contour_merging` (lines 98-303),
with the contours it extracts from the fused region masks given as
input. -/
def find_rectangles_with_contour_merging (min_area : ℚ) (existing_rectangles : List (ℚ × RRect))
    (region_contours : List Contour) : List (ℚ × RRect) :=
  let existing_boxes := existing_rectangles.map Prod.snd
  region_contours.filterMap fun c =>
    if mergeAccepts min_area existing_boxes c then some (c.boxArea, c.rect) else none

/-- Descending-by-area order on stored candidates, as used by
`rectangles.sort(key=lambda x: x[0], reverse=True)`. -/
def areaDesc (a b : ℚ × RRect) : Prop := b.1 ≤ a.1

instance : DecidableRel areaDesc := fun a b => inferInstanceAs (Decidable (b.1 ≤ a.1))

instance : IsTotal (ℚ × RRect) areaDesc := ⟨fun a b => le_total b.1 a.1⟩

instance : IsTrans (ℚ × RRect) areaDesc := ⟨fun _ _ _ h1 h2 => le_trans h2 h1⟩

/-- Stable sort by area descending, modelling Python's stable
`list.sort(key=lambda x: x[0], reverse=True)`. -/
def sortByAreaDesc (l : List (ℚ × RRect)) : List (ℚ × RRect) :=
  List.insertionSort areaDesc l

/-- The contour lists the three strategies would extract from one image. -/
structure DetectInput where
  primaryContours : List Contour
  morphContours : List Contour
  mergeRegionContours : List Contour

/-- Result of the detection phase of `crop_and_rotate_rectangles`:
the final candidate list and which fallbacks were invoked. -/
structure DetectResult where
  rectangles : List (ℚ × RRect)
  morphologyInvoked : Bool
  contourMergeInvoked : Bool

/-- Primary candidates after the first sort (lines 412-438). -/
def primarySorted (min_area : ℚ) (inp : DetectInput) : List (ℚ × RRect) :=
  sortByAreaDesc (primaryFilter min_area inp.primaryContours)

/-- Candidate list after the morphology fallback step (lines 440-454):
the fallback runs only when the primary count is short of the cap, and the
merged list is re-sorted only when the fallback found anything. -/
def afterMorphology (min_area : ℚ) (max_rectangles : ℕ) (inp : DetectInput) :
    List (ℚ × RRect) :=
  let rectangles := primarySorted min_area inp
  if rectangles.length < max_rectangles then
    let extra := find_rectangles_with_morphology min_area rectangles inp.morphContours
    if extra.isEmpty then rectangles else sortByAreaDesc (rectangles ++ extra)
  else rectangles

/-- Detection phase of `crop_and_rotate_rectangles` (lines 412-471):
primary detection, then the two fallback strategies under their invocation
conditions. -/
def detectCardRectangles (min_area : ℚ) (max_rectangles : ℕ) (inp : DetectInput) :
    DetectResult :=
  let rectangles := primarySorted min_area inp
  if rectangles.length < max_rectangles then
    let rectangles2 := afterMorphology min_area max_rectangles inp
    if rectangles2.length < max_rectangles then
      let merged :=
        find_rectangles_with_contour_merging min_area rectangles2 inp.mergeRegionContours
      ⟨if merged.isEmpty then rectangles2 else sortByAreaDesc (rectangles2 ++ merged),
        true, true⟩
    else ⟨rectangles2, true, false⟩
  else ⟨rectangles, false, false⟩

/-- The candidates actually processed into crops:
`rectangles[:max_rectangles]` (line 492). -/
def processedCandidates (min_area : ℚ) (max_rectangles : ℕ) (inp : DetectInput) :
    List (ℚ × RRect) :=
  (detectCardRectangles min_area max_rectangles inp).rectangles.take max_rectangles

/-- State of the Cataloger: the set of content hashes for which a metadata
JSON document has been persisted, and the number of invocations of the
metadata-extraction collaborator so far. -/
structure CatalogState where
  persisted : List String
  extractionCalls : ℕ
  deriving DecidableEq

/-- Cataloging step of `process_image` for one trimmed image with content
hash `h` (lines 619-653): the extraction collaborator is invoked
unconditionally, then the structured response is written to `<h>.json`
(overwriting any existing document for the same hash). No check of the
persisted store precedes the invocation. -/
def catalogTrimmedImage (h : String) (s : CatalogState) : CatalogState :=
  { persisted := if h ∈ s.persisted then s.persisted else h :: s.persisted
    extractionCalls := s.extractionCalls + 1 }

/-- Modelled from the spec: the Cataloger as section 4.7 describes it,
consulting the content-addressed cache first and invoking extraction only
on a miss. Stated for comparison with `catalogTrimmedImage`; it does not
correspond to any code in the source. -/
def catalogTrimmedImageAsSpecified (h : String) (s : CatalogState) : CatalogState :=
  if h ∈ s.persisted then s
  else { persisted := h :: s.persisted, extractionCalls := s.extractionCalls + 1 }

/-- Largest natural `j ≤ fuel` with `j * j ≤ n` (0 when none). -/
def isqrtAux (n : ℕ) : ℕ → ℕ
  | 0 => 0
  | k + 1 => if (k + 1) * (k + 1) ≤ n then k + 1 else isqrtAux n k

/-- Integer square root: the largest natural `m` with `m * m ≤ n`. -/
def isqrt (n : ℕ) : ℕ := isqrtAux n n

/-- Truncation of the square root of a nonnegative rational, modelling
Python's `int(math.sqrt(q))`. -/
def floorSqrt (q : ℚ) : ℕ := isqrt ⌊q⌋.toNat

/-- Padding computed by the Rotation Normalizer (line 506):
`int(math.sqrt(width**2 + height**2)) + 20` — the square root is
truncated, and the fixed margin is 20. -/
def rotationPadding (w h : ℚ) : ℕ := floorSqrt (w ^ 2 + h ^ 2) + 20

/-- Ceiling of the square root of a nonnegative rational. -/
def ceilSqrt (q : ℚ) : ℕ :=
  if ((floorSqrt q : ℚ)) ^ 2 = q then floorSqrt q else floorSqrt q + 1

/-- Modelled from the spec: section 4.6's claimed padding
`ceil(sqrt(width**2 + height**2)) + fixed_margin`, with the source's
margin of 20. Stated for comparison with `rotationPadding`. -/
def rotationPaddingAsSpecified (w h : ℚ) : ℕ := ceilSqrt (w ^ 2 + h ^ 2) + 20

/-- A raster image: dimensions plus a BGR pixel function. -/
structure Image where
  rows : ℕ
  cols : ℕ
  pixel : ℕ → ℕ → ℕ × ℕ × ℕ

/-- The black pixel used for the constant border. -/
def blackPixel : ℕ × ℕ × ℕ := (0, 0, 0)

/-- `cv2.copyMakeBorder(image, d, d, d, d, cv2.BORDER_CONSTANT,
value=[0, 0, 0])` (lines 510-518): the same border width `d` on all four
sides, filled with constant black. -/
def copyMakeBorderConstant (img : Image) (d : ℕ) : Image :=
  { rows := img.rows + 2 * d
    cols := img.cols + 2 * d
    pixel := fun r c =>
      if d ≤ r ∧ r < d + img.rows ∧ d ≤ c ∧ c < d + img.cols then
        img.pixel (r - d) (c - d)
      else blackPixel }

/-- Possible outcomes of a Python call, as far as the driver's handlers
distinguish them: normal return, `KeyboardInterrupt`, or an exception
caught by `except Exception`. -/
inductive PyOutcome where
  | ok
  | keyboardInterrupt
  | exception
  deriving DecidableEq

/-- The `try/except Exception` around each per-image OCR analysis
(lines 620-656): an exception is caught and logged; a keyboard interrupt
is not an `Exception` and propagates. -/
def ocrTryExcept : PyOutcome → PyOutcome
  | .exception => .ok
  | o => o

/-- Sequential per-image cataloging loop: each step is wrapped in the
per-image handler, and the loop stops early only when an outcome
propagates. -/
def ocrLoopOutcome (steps : List PyOutcome) : PyOutcome :=
  steps.foldl (fun acc s => match acc with | .ok => ocrTryExcept s | o => o) .ok

/-- The `__main__` guard (lines 715-724): `exit(0)` on normal return,
`exit(0)` after printing `...cancelling` on `KeyboardInterrupt`, and
`exit(1)` on any other uncaught exception. -/
def mainGuardExit : PyOutcome → ℕ
  | .ok => 0
  | .keyboardInterrupt => 0
  | .exception => 1

/-- A concrete card-like contour: area 600001, rect 700 by 1000 at
(500, 500), box area 700001. -/
def dupC1 : Contour := ⟨600001, ⟨500, 500, 700, 1000⟩, 700001⟩

/-- A second card-like contour one pixel to the right of `dupC1`. -/
def dupC2 : Contour := ⟨600000, ⟨501, 500, 700, 1000⟩, 700000⟩

/-- Detection input whose primary contours are the two overlapping
card-like contours. -/
def dupInput : DetectInput := ⟨[dupC1, dupC2], [], []⟩

/-- A card-like contour far away from `dupC1` and `dupC2`. -/
def farC : Contour := ⟨600000, ⟨5000, 500, 700, 1000⟩, 700000⟩

/-- A card-like contour of box area 800000. -/
def bigC : Contour := ⟨900000, ⟨500, 500, 700, 1000⟩, 800000⟩

/-- A card-like contour of box area 700000, away from `bigC`. -/
def smallC : Contour := ⟨900000, ⟨5000, 500, 700, 1000⟩, 700000⟩

/-- Detection input with two card-like primary contours, the smaller one
listed first. -/
def pairInput : DetectInput := ⟨[smallC, bigC], [], []⟩

/-- A small card-like contour with rect 7 by 10 (aspect 0.7). -/
def padC : Contour := ⟨70, ⟨100, 100, 7, 10⟩, 70⟩

/-- Detection input holding only `padC`. -/
def padInput : DetectInput := ⟨[padC], [], []⟩

/-- A small concrete image with uniform gray pixels. -/
def demoImage : Image := ⟨2, 3, fun _ _ => (9, 9, 9)⟩

/-! ## Helper lemmas -/

theorem sorted_sortByAreaDesc (l : List (ℚ × RRect)) :
    (sortByAreaDesc l).Sorted areaDesc :=
  List.sorted_insertionSort areaDesc l

theorem perm_sortByAreaDesc (l : List (ℚ × RRect)) :
    (sortByAreaDesc l).Perm l :=
  List.perm_insertionSort areaDesc l

theorem length_sortByAreaDesc (l : List (ℚ × RRect)) :
    (sortByAreaDesc l).length = l.length :=
  (perm_sortByAreaDesc l).length_eq

theorem mem_acceptFilter {p : Contour → Bool} {l : List Contour} {x : ℚ × RRect}
    (hx : x ∈ l.filterMap fun c => if p c then some (c.boxArea, c.rect) else none) :
    ∃ c ∈ l, p c = true ∧ x = (c.boxArea, c.rect) := by
  obtain ⟨c, hc, hf⟩ := List.mem_filterMap.mp hx
  by_cases hp : p c = true
  · refine ⟨c, hc, hp, ?_⟩
    rw [if_pos hp] at hf
    exact (Option.some.inj hf).symm
  · rw [if_neg hp] at hf
    exact absurd hf (by simp)

theorem primaryAspect_eq_aspectOf {r : RRect} (hband : (65 : ℚ) / 100 ≤ primaryAspect r) :
    primaryAspect r = aspectOf r := by
  unfold primaryAspect at hband ⊢
  unfold aspectOf
  by_cases hpos : 0 < min r.w r.h
  · rw [if_pos hpos]
  · rw [if_neg hpos] at hband
    norm_num at hband

theorem fallbackAspect_eq_aspectOf {r : RRect} {lo : ℚ} (hlo : 0 < lo)
    (hband : lo ≤ fallbackAspect r) :
    fallbackAspect r = aspectOf r := by
  unfold fallbackAspect at hband ⊢
  unfold aspectOf
  by_cases hpos : 0 < max r.w r.h
  · rw [if_pos hpos]
  · rw [if_neg hpos] at hband
    exact absurd (lt_of_lt_of_le hlo hband) (lt_irrefl 0)

theorem primaryAccepts_spec {min_area : ℚ} {c : Contour}
    (hacc : primaryAccepts min_area c = true) :
    min_area ≤ c.area ∧
      (65 : ℚ) / 100 ≤ aspectOf c.rect ∧ aspectOf c.rect ≤ 75 / 100 := by
  unfold primaryAccepts at hacc
  split at hacc
  · exact absurd hacc (by simp)
  · split at hacc
    · next harea hband =>
      have heq := primaryAspect_eq_aspectOf hband.1
      exact ⟨not_lt.mp harea, heq ▸ hband.1, heq ▸ hband.2⟩
    · exact absurd hacc (by simp)

theorem morphAccepts_spec {min_area : ℚ} {boxes : List RRect} {c : Contour}
    (hacc : morphAccepts min_area boxes c = true) :
    min_area * (8 / 10) ≤ c.area ∧
      (63 : ℚ) / 100 ≤ aspectOf c.rect ∧ aspectOf c.rect ≤ 77 / 100 ∧
      ∀ e ∈ boxes, boxes_overlap c.rect e = false := by
  unfold morphAccepts at hacc
  split at hacc
  · exact absurd hacc (by simp)
  · split at hacc
    · exact absurd hacc (by simp)
    · next harea hband =>
      rw [not_not] at hband
      have heq := fallbackAspect_eq_aspectOf (by norm_num) hband.1
      refine ⟨not_lt.mp harea, heq ▸ hband.1, heq ▸ hband.2, ?_⟩
      have hany : boxes.any (fun e => boxes_overlap c.rect e) = false := by
        simpa using hacc
      simpa using List.any_eq_false.mp hany

theorem mergeAccepts_spec {min_area : ℚ} {boxes : List RRect} {c : Contour}
    (hacc : mergeAccepts min_area boxes c = true) :
    min_area * (7 / 10) ≤ c.area ∧
      (60 : ℚ) / 100 ≤ aspectOf c.rect ∧ aspectOf c.rect ≤ 80 / 100 ∧
      ∀ e ∈ boxes, boxes_overlap c.rect e = false := by
  unfold mergeAccepts at hacc
  split at hacc
  · exact absurd hacc (by simp)
  · split at hacc
    · exact absurd hacc (by simp)
    · next harea hband =>
      rw [not_not] at hband
      have heq := fallbackAspect_eq_aspectOf (by norm_num) hband.1
      refine ⟨not_lt.mp harea, heq ▸ hband.1, heq ▸ hband.2, ?_⟩
      have hany : boxes.any (fun e => boxes_overlap c.rect e) = false := by
        simpa using hacc
      simpa using List.any_eq_false.mp hany

theorem afterMorphology_sorted (min_area : ℚ) (max_rectangles : ℕ) (inp : DetectInput) :
    (afterMorphology min_area max_rectangles inp).Sorted areaDesc := by
  simp only [afterMorphology]
  split
  · split
    · exact sorted_sortByAreaDesc _
    · exact sorted_sortByAreaDesc _
  · exact sorted_sortByAreaDesc _

theorem detect_rectangles_sorted (min_area : ℚ) (max_rectangles : ℕ) (inp : DetectInput) :
    ((detectCardRectangles min_area max_rectangles inp).rectangles).Sorted areaDesc := by
  simp only [detectCardRectangles]
  split
  · split
    · dsimp only
      split
      · exact afterMorphology_sorted _ _ _
      · exact sorted_sortByAreaDesc _
    · exact afterMorphology_sorted _ _ _
  · exact sorted_sortByAreaDesc _

theorem isqrtAux_sq_le (n : ℕ) : ∀ k, isqrtAux n k * isqrtAux n k ≤ n
  | 0 => by simp [isqrtAux]
  | k + 1 => by
    unfold isqrtAux
    split
    · assumption
    · exact isqrtAux_sq_le n k

theorem le_isqrtAux (n : ℕ) : ∀ j k, k ≤ j → k * k ≤ n → k ≤ isqrtAux n j
  | 0, k, hk, _ => by simpa [isqrtAux] using hk
  | j + 1, k, hk, hkn => by
    unfold isqrtAux
    split
    · exact hk
    · next hfail =>
      have hkj : k ≤ j := by
        rcases Nat.eq_or_lt_of_le hk with he | hl
        · exact absurd (he ▸ hkn) hfail
        · omega
      exact le_isqrtAux n j k hkj hkn

theorem isqrt_sq_le (n : ℕ) : isqrt n * isqrt n ≤ n :=
  isqrtAux_sq_le n n

theorem lt_succ_isqrt_sq (n : ℕ) : n < (isqrt n + 1) * (isqrt n + 1) := by
  by_contra hcon
  push_neg at hcon
  have hle : isqrt n + 1 ≤ n :=
    le_trans (Nat.le_mul_of_pos_left (isqrt n + 1) (Nat.succ_pos _)) hcon
  have h2 : isqrt n + 1 ≤ isqrt n := le_isqrtAux n n (isqrt n + 1) hle hcon
  omega

theorem ocrLoopOutcome_ok (steps : List PyOutcome)
    (hnone : PyOutcome.keyboardInterrupt ∉ steps) : ocrLoopOutcome steps = .ok := by
  induction steps with
  | nil => rfl
  | cons s rest ih =>
    have hs : s ≠ PyOutcome.keyboardInterrupt := by
      intro he
      exact hnone (he ▸ List.mem_cons_self s rest)
    have hrest : PyOutcome.keyboardInterrupt ∉ rest := fun hm =>
      hnone (List.mem_cons_of_mem s hm)
    have hstep : ocrTryExcept s = .ok := by
      cases s with
      | ok => rfl
      | exception => rfl
      | keyboardInterrupt => exact absurd rfl hs
    unfold ocrLoopOutcome at ih ⊢
    rw [List.foldl_cons]
    simpa [hstep] using ih hrest

/-! ## Claim theorems -/

/-- C1 (counterexample): running the cataloging step twice on the same
final image bytes invokes the metadata-extraction collaborator twice, not
once — the code performs no cache check before the invocation. The
spec-described cache-checking Cataloger would invoke it once. -/
theorem cataloger_double_run_two_calls :
    (catalogTrimmedImage "d41d8cd9" (catalogTrimmedImage "d41d8cd9" ⟨[], 0⟩)).extractionCalls
        = 2 ∧
      (catalogTrimmedImageAsSpecified "d41d8cd9"
          (catalogTrimmedImageAsSpecified "d41d8cd9" ⟨[], 0⟩)).extractionCalls = 1 := by
  exact ⟨by decide, by decide⟩

/-- C1 (amended): the Cataloger invokes the metadata-extraction
collaborator unconditionally — once per trimmed image per run — and only
afterwards persists the response keyed by the content hash; running it
twice on the same final image bytes therefore invokes the collaborator
exactly twice, while the persisted store still holds one document per
hash. -/
theorem cataloger_always_invokes_extraction (key : String) (s : CatalogState) :
    (catalogTrimmedImage key s).extractionCalls = s.extractionCalls + 1 ∧
      (catalogTrimmedImage key (catalogTrimmedImage key s)).extractionCalls
        = s.extractionCalls + 2 ∧
      key ∈ (catalogTrimmedImage key s).persisted := by
  refine ⟨rfl, rfl, ?_⟩
  unfold catalogTrimmedImage
  dsimp only
  split
  · assumption
  · exact List.mem_cons_self key s.persisted

/-- C6: the Overlap Deduplicator returns true exactly when the absolute
center displacement along each axis is strictly below 0.7 times the sum of
the two half-extents on that axis. -/
theorem boxes_overlap_characterization (b1 b2 : RRect) :
    boxes_overlap b1 b2 = true ↔
      (|b1.cx - b2.cx| < (b1.w / 2 + b2.w / 2) * (7 / 10) ∧
        |b1.cy - b2.cy| < (b1.h / 2 + b2.h / 2) * (7 / 10)) := by
  simp [boxes_overlap]

/-- C8 (counterexample): the `__main__` guard exits with code 0, not a
non-zero code, when the run ends in a keyboard interrupt — it catches
`KeyboardInterrupt`, prints a cancel message, and calls `exit(0)`. -/
theorem keyboard_interrupt_exits_zero :
    mainGuardExit PyOutcome.keyboardInterrupt = 0 := rfl

/-- C8 (amended): the driver exits 0 on normal completion, including runs
whose per-image OCR steps fail (those exceptions are caught and logged in
the loop); it also exits 0 on a keyboard interrupt; it exits 1 only on an
uncaught exception. -/
theorem driver_exit_code_behavior (steps : List PyOutcome)
    (hnone : PyOutcome.keyboardInterrupt ∉ steps) :
    mainGuardExit (ocrLoopOutcome steps) = 0 ∧
      mainGuardExit PyOutcome.ok = 0 ∧
      mainGuardExit PyOutcome.keyboardInterrupt = 0 ∧
      mainGuardExit PyOutcome.exception = 1 := by
  refine ⟨?_, rfl, rfl, rfl⟩
  rw [ocrLoopOutcome_ok steps hnone]
  rfl

/-- Witness for C8's amended theorem: a run whose only per-image step
raises an exception still exits with code 0. -/
theorem driver_exit_code_behavior_witness :
    mainGuardExit (ocrLoopOutcome [PyOutcome.exception]) = 0 ∧
      mainGuardExit PyOutcome.exception = 1 := by
  have h := driver_exit_code_behavior [PyOutcome.exception] (by decide)
  exact ⟨h.1, h.2.2.2⟩

/-- C9 (counterexample): under the default configuration the primary
detector accepts a contour of aspect ratio 0.70, which lies outside the
band 0.71 - 0.72 the claim states. -/
theorem primary_band_accepts_seventy_hundredths :
    primaryAccepts 500000 ⟨600000, ⟨500, 500, 700, 1000⟩, 700000⟩ = true ∧
      aspectOf ⟨500, 500, 700, 1000⟩ = 7 / 10 ∧
      ¬ ((71 : ℚ) / 100 ≤ 7 / 10 ∧ (7 : ℚ) / 10 ≤ 72 / 100) := by
  refine ⟨by norm_num [primaryAccepts, primaryAspect], by norm_num [aspectOf], by norm_num⟩

/-- C9 (amended): the primary detector's accept band is [0.65, 0.75]: a
contour is accepted exactly when its area reaches the threshold and its
guarded aspect ratio lies in that band. -/
theorem primary_accept_band_065_075 (min_area : ℚ) (c : Contour) :
    primaryAccepts min_area c = true ↔
      (¬ c.area < min_area ∧
        (65 : ℚ) / 100 ≤ primaryAspect c.rect ∧ primaryAspect c.rect ≤ 75 / 100) := by
  unfold primaryAccepts
  split
  · simp_all
  · split
    · simp_all
    · simp_all

/-- C10: in all three strategies a degenerate rectangle (zero width or
zero height) yields an aspect value of 0 via the division guard, and since
0 lies outside every accept band, such a contour is rejected by all three
acceptance tests. -/
theorem degenerate_rectangle_rejected (min_area : ℚ) (boxes : List RRect) (c : Contour)
    (hdeg : c.rect.w = 0 ∨ c.rect.h = 0) :
    primaryAspect c.rect = 0 ∧ fallbackAspect c.rect = 0 ∧
      primaryAccepts min_area c = false ∧
      morphAccepts min_area boxes c = false ∧
      mergeAccepts min_area boxes c = false := by
  have hmin : min c.rect.w c.rect.h ≤ 0 := by
    rcases hdeg with h0 | h0
    · exact h0 ▸ min_le_left c.rect.w c.rect.h
    · exact h0 ▸ min_le_right c.rect.w c.rect.h
  have hp : primaryAspect c.rect = 0 := by
    unfold primaryAspect
    exact if_neg (not_lt.mpr hmin)
  have hf : fallbackAspect c.rect = 0 := by
    unfold fallbackAspect
    by_cases hmax : 0 < max c.rect.w c.rect.h
    · rw [if_pos hmax]
      have hzero : min c.rect.w c.rect.h = 0 := by
        rcases hdeg with h0 | h0
        · rcases le_or_lt 0 c.rect.h with hh | hh
          · rw [h0]
            exact min_eq_left hh
          · exfalso
            have hmle : max c.rect.w c.rect.h ≤ 0 := by
              rw [h0]
              exact max_le le_rfl (le_of_lt hh)
            exact absurd (lt_of_lt_of_le hmax hmle) (lt_irrefl 0)
        · rcases le_or_lt 0 c.rect.w with hh | hh
          · rw [h0]
            exact min_eq_right hh
          · exfalso
            have hmle : max c.rect.w c.rect.h ≤ 0 := by
              rw [h0]
              exact max_le (le_of_lt hh) le_rfl
            exact absurd (lt_of_lt_of_le hmax hmle) (lt_irrefl 0)
      rw [hzero, zero_div]
    · exact if_neg hmax
  refine ⟨hp, hf, ?_, ?_, ?_⟩
  · unfold primaryAccepts
    rw [hp]
    split
    · rfl
    · rw [if_neg (by norm_num)]
  · unfold morphAccepts
    rw [hf]
    split
    · rfl
    · rw [if_pos (by norm_num)]
  · unfold mergeAccepts
    rw [hf]
    split
    · rfl
    · rw [if_pos (by norm_num)]

/-- Witness for C10: a concrete zero-width contour of large area is
rejected by the primary and morphology acceptance tests. -/
theorem degenerate_rectangle_rejected_witness :
    primaryAccepts 500000 ⟨1000000, ⟨0, 0, 0, 5⟩, 0⟩ = false ∧
      morphAccepts 500000 [] ⟨1000000, ⟨0, 0, 0, 5⟩, 0⟩ = false := by
  have h := degenerate_rectangle_rejected 500000 [] ⟨1000000, ⟨0, 0, 0, 5⟩, 0⟩ (Or.inl rfl)
  exact ⟨h.2.2.1, h.2.2.2.1⟩

/-- C3: every candidate accepted by a strategy satisfies that strategy's
aspect band and area floor — primary: area at least `min_area` and aspect
in [0.65, 0.75]; morphology: area at least `0.8 * min_area` and aspect in
[0.63, 0.77]; contour-merge: area at least `0.7 * min_area` and aspect in
[0.60, 0.80] — every accepted aspect lies in [0.60, 0.80], and the bands
widen monotonically from primary through morphology to contour-merge. -/
theorem accepted_candidates_aspect_band_and_area_floor (min_area : ℚ)
    (boxes : List RRect) (c : Contour) :
    (primaryAccepts min_area c = true →
      min_area ≤ c.area ∧
        (65 : ℚ) / 100 ≤ aspectOf c.rect ∧ aspectOf c.rect ≤ 75 / 100 ∧
        (60 : ℚ) / 100 ≤ aspectOf c.rect ∧ aspectOf c.rect ≤ 80 / 100) ∧
      (morphAccepts min_area boxes c = true →
        min_area * (8 / 10) ≤ c.area ∧
          (63 : ℚ) / 100 ≤ aspectOf c.rect ∧ aspectOf c.rect ≤ 77 / 100 ∧
          (60 : ℚ) / 100 ≤ aspectOf c.rect ∧ aspectOf c.rect ≤ 80 / 100) ∧
      (mergeAccepts min_area boxes c = true →
        min_area * (7 / 10) ≤ c.area ∧
          (60 : ℚ) / 100 ≤ aspectOf c.rect ∧ aspectOf c.rect ≤ 80 / 100) ∧
      (∀ q : ℚ, (65 : ℚ) / 100 ≤ q ∧ q ≤ 75 / 100 →
        (63 : ℚ) / 100 ≤ q ∧ q ≤ 77 / 100) ∧
      (∀ q : ℚ, (63 : ℚ) / 100 ≤ q ∧ q ≤ 77 / 100 →
        (60 : ℚ) / 100 ≤ q ∧ q ≤ 80 / 100) := by
  refine ⟨?_, ?_, ?_, ?_, ?_⟩
  · intro hacc
    obtain ⟨ha, h1, h2⟩ := primaryAccepts_spec hacc
    exact ⟨ha, h1, h2, by linarith, by linarith⟩
  · intro hacc
    obtain ⟨ha, h1, h2, _⟩ := morphAccepts_spec hacc
    exact ⟨ha, h1, h2, by linarith, by linarith⟩
  · intro hacc
    obtain ⟨ha, h1, h2, _⟩ := mergeAccepts_spec hacc
    exact ⟨ha, h1, h2⟩
  · intro q hq
    exact ⟨by linarith [hq.1], by linarith [hq.2]⟩
  · intro q hq
    exact ⟨by linarith [hq.1], by linarith [hq.2]⟩

/-- Witness for C3: the concrete card-like contour `bigC` is accepted by
the primary detector, so its area reaches the base floor and its aspect
ratio lies in the primary band. -/
theorem accepted_candidates_aspect_band_and_area_floor_witness :
    (500000 : ℚ) ≤ 900000 ∧ (65 : ℚ) / 100 ≤ aspectOf ⟨500, 500, 700, 1000⟩ := by
  have h := accepted_candidates_aspect_band_and_area_floor 500000 [] bigC
  have h2 := h.1 (by norm_num [primaryAccepts, primaryAspect, bigC])
  exact ⟨h2.1, h2.2.1⟩

/-- C2 (counterexample): two card-like contours one pixel apart are both
accepted by the primary detector — which never deduplicates its own
candidates — so the final accepted list of this image contains a distinct
pair on which the Overlap Deduplicator evaluates true. -/
theorem overlapping_pair_in_final_candidates :
    (detectCardRectangles 500000 5 dupInput).rectangles =
        [(700001, ⟨500, 500, 700, 1000⟩), (700000, ⟨501, 500, 700, 1000⟩)] ∧
      boxes_overlap ⟨500, 500, 700, 1000⟩ ⟨501, 500, 700, 1000⟩ = true := by
  constructor
  · norm_num [detectCardRectangles, primarySorted, afterMorphology, primaryFilter,
      primaryAccepts, primaryAspect, dupInput, dupC1, dupC2, List.filterMap,
      find_rectangles_with_morphology, find_rectangles_with_contour_merging,
      sortByAreaDesc, List.insertionSort, List.orderedInsert, areaDesc]
  · norm_num [boxes_overlap]

/-- C2 (amended): every candidate accepted by a fallback strategy
(morphology or contour-merge) fails the Overlap Deduplicator against every
candidate that was already accepted when that strategy ran; pairs produced
by the same strategy — including two primary candidates — are not checked
against each other and may overlap. -/
theorem fallback_candidates_not_overlapping_existing (min_area : ℚ)
    (existing : List (ℚ × RRect)) (cs ds : List Contour) :
    (∀ x ∈ find_rectangles_with_morphology min_area existing cs,
      ∀ e ∈ existing, boxes_overlap x.2 e.2 = false) ∧
      (∀ x ∈ find_rectangles_with_contour_merging min_area existing ds,
        ∀ e ∈ existing, boxes_overlap x.2 e.2 = false) := by
  constructor
  · intro x hx e he
    obtain ⟨c, _, hacc, hxeq⟩ := mem_acceptFilter hx
    have hno := (morphAccepts_spec hacc).2.2.2
    have hmem : e.2 ∈ existing.map Prod.snd := List.mem_map_of_mem Prod.snd he
    rw [hxeq]
    exact hno e.2 hmem
  · intro x hx e he
    obtain ⟨c, _, hacc, hxeq⟩ := mem_acceptFilter hx
    have hno := (mergeAccepts_spec hacc).2.2.2
    have hmem : e.2 ∈ existing.map Prod.snd := List.mem_map_of_mem Prod.snd he
    rw [hxeq]
    exact hno e.2 hmem

/-- Witness for C2's amended theorem: the far-away contour `farC` is
accepted by the morphology fallback against one existing candidate, and
the Overlap Deduplicator evaluates false on the pair. -/
theorem fallback_candidates_not_overlapping_existing_witness :
    boxes_overlap ⟨5000, 500, 700, 1000⟩ ⟨500, 500, 700, 1000⟩ = false := by
  have h := fallback_candidates_not_overlapping_existing 500000
    [(700000, ⟨500, 500, 700, 1000⟩)] [farC] []
  exact h.1 (700000, ⟨5000, 500, 700, 1000⟩)
    (by norm_num [find_rectangles_with_morphology, morphAccepts, fallbackAspect, farC,
      List.filterMap, List.any, boxes_overlap])
    (700000, ⟨500, 500, 700, 1000⟩) (by simp)

/-- C4: the morphology fallback is invoked exactly when the primary
detector yielded fewer candidates than the requested maximum; the
contour-merge fallback is invoked exactly when, after merging the
morphology fallback's candidates, the count is still below the maximum;
when the primary detector alone reaches the maximum, neither fallback
runs. -/
theorem fallback_invocation_conditions (min_area : ℚ) (max_rectangles : ℕ)
    (inp : DetectInput) :
    ((detectCardRectangles min_area max_rectangles inp).morphologyInvoked = true ↔
      (primaryFilter min_area inp.primaryContours).length < max_rectangles) ∧
      ((detectCardRectangles min_area max_rectangles inp).contourMergeInvoked = true ↔
        ((primaryFilter min_area inp.primaryContours).length < max_rectangles ∧
          (afterMorphology min_area max_rectangles inp).length < max_rectangles)) ∧
      (max_rectangles ≤ (primaryFilter min_area inp.primaryContours).length →
        (detectCardRectangles min_area max_rectangles inp).morphologyInvoked = false ∧
          (detectCardRectangles min_area max_rectangles inp).contourMergeInvoked = false) := by
  have hlen : (primarySorted min_area inp).length
      = (primaryFilter min_area inp.primaryContours).length := by
    unfold primarySorted
    exact length_sortByAreaDesc _
  simp only [detectCardRectangles]
  rw [hlen]
  split
  · split
    · next h1 h2 =>
      refine ⟨by simp_all, by simp_all, fun hge => absurd h1 (not_lt.mpr hge)⟩
    · next h1 h2 =>
      refine ⟨by simp_all, by simp_all, fun hge => absurd h1 (not_lt.mpr hge)⟩
  · next h1 =>
    refine ⟨by simp_all, ?_, by simp_all⟩
    constructor
    · intro hfalse
      exact absurd hfalse (by simp)
    · intro hboth
      exact absurd hboth.1 h1

/-- Witness for C4: with a cap of 1 and two primary candidates, neither
fallback is invoked. -/
theorem fallback_invocation_conditions_witness :
    (detectCardRectangles 500000 1 pairInput).morphologyInvoked = false ∧
      (detectCardRectangles 500000 1 pairInput).contourMergeInvoked = false := by
  have h := fallback_invocation_conditions 500000 1 pairInput
  exact h.2.2 (by norm_num [primaryFilter, pairInput, smallC, bigC, primaryAccepts,
    primaryAspect, List.filterMap])

theorem copyMakeBorder_border (img : Image) (d r c : ℕ)
    (hout : r < d ∨ d + img.rows ≤ r ∨ c < d ∨ d + img.cols ≤ c) :
    (copyMakeBorderConstant img d).pixel r c = blackPixel := by
  have hcond : ¬ (d ≤ r ∧ r < d + img.rows ∧ d ≤ c ∧ c < d + img.cols) := by omega
  simp [copyMakeBorderConstant, hcond]

theorem copyMakeBorder_interior (img : Image) (d r c : ℕ)
    (hr : r < img.rows) (hc : c < img.cols) :
    (copyMakeBorderConstant img d).pixel (d + r) (d + c) = img.pixel r c := by
  have hcond : d ≤ d + r ∧ d + r < d + img.rows ∧ d ≤ d + c ∧ d + c < d + img.cols := by
    omega
  simp [copyMakeBorderConstant, hcond]

/-- C5: the merged candidate list is sorted by area in descending order
before normalization; the candidates processed into crops are exactly its
first `max_rectangles` entries, so at most `max_rectangles` are processed,
they are visited in descending-area order, and every candidate left
unprocessed has area at most that of every processed one. -/
theorem candidates_sorted_and_capped (min_area : ℚ) (max_rectangles : ℕ)
    (inp : DetectInput) :
    ((detectCardRectangles min_area max_rectangles inp).rectangles).Sorted areaDesc ∧
      processedCandidates min_area max_rectangles inp
        = ((detectCardRectangles min_area max_rectangles inp).rectangles).take
            max_rectangles ∧
      (processedCandidates min_area max_rectangles inp).length ≤ max_rectangles ∧
      (processedCandidates min_area max_rectangles inp).Sorted areaDesc ∧
      (∀ a ∈ processedCandidates min_area max_rectangles inp,
        ∀ b ∈ ((detectCardRectangles min_area max_rectangles inp).rectangles).drop
            max_rectangles,
          b.1 ≤ a.1) := by
  have hs := detect_rectangles_sorted min_area max_rectangles inp
  refine ⟨hs, rfl, ?_, hs.sublist (List.take_sublist _ _), ?_⟩
  · unfold processedCandidates
    simp [List.length_take]
  · intro a ha b hb
    have hsplit :
        (((detectCardRectangles min_area max_rectangles inp).rectangles).take
              max_rectangles ++
            ((detectCardRectangles min_area max_rectangles inp).rectangles).drop
              max_rectangles).Pairwise areaDesc := by
      rw [List.take_append_drop]
      exact hs
    exact (List.pairwise_append.mp hsplit).2.2 a ha b hb

/-- Witness for C5: with a cap of 1 on an input holding two accepted
candidates, the dropped candidate's area (700000) is at most the processed
candidate's area (800000). -/
theorem candidates_sorted_and_capped_witness : (700000 : ℚ) ≤ 800000 := by
  have h := candidates_sorted_and_capped 500000 1 pairInput
  have hp : processedCandidates 500000 1 pairInput = [(800000, ⟨500, 500, 700, 1000⟩)] := by
    norm_num [processedCandidates, detectCardRectangles, primarySorted, afterMorphology,
      primaryFilter, primaryAccepts, primaryAspect, pairInput, smallC, bigC,
      List.filterMap, find_rectangles_with_morphology,
      find_rectangles_with_contour_merging, sortByAreaDesc, List.insertionSort,
      List.orderedInsert, areaDesc, List.take]
  have hd : ((detectCardRectangles 500000 1 pairInput).rectangles).drop 1
      = [(700000, ⟨5000, 500, 700, 1000⟩)] := by
    norm_num [detectCardRectangles, primarySorted, afterMorphology, primaryFilter,
      primaryAccepts, primaryAspect, pairInput, smallC, bigC, List.filterMap,
      find_rectangles_with_morphology, find_rectangles_with_contour_merging,
      sortByAreaDesc, List.insertionSort, List.orderedInsert, areaDesc, List.drop]
  exact h.2.2.2.2 (800000, ⟨500, 500, 700, 1000⟩)
    (by rw [hp]; exact List.mem_singleton_self _)
    (700000, ⟨5000, 500, 700, 1000⟩)
    (by rw [hd]; exact List.mem_singleton_self _)

/-- C7 (counterexample): the 7-by-10 candidate of `padInput` is processed
by the pipeline, and for it the code computes padding
`int(sqrt(149)) + 20 = 12 + 20 = 32` — the truncated square root — while
the claimed `ceil(sqrt(149)) + 20` is `13 + 20 = 33` (since
`12 * 12 ≤ 149 < 13 * 13`). -/
theorem rotation_padding_truncates :
    processedCandidates 60 5 padInput = [(70, ⟨100, 100, 7, 10⟩)] ∧
      rotationPadding 7 10 = 32 ∧
      12 * 12 ≤ 149 ∧ 149 < 13 * 13 ∧
      rotationPaddingAsSpecified 7 10 = 33 := by
  refine ⟨?_, ?_, by norm_num, by norm_num, ?_⟩
  · norm_num [processedCandidates, detectCardRectangles, primarySorted, afterMorphology,
      primaryFilter, primaryAccepts, primaryAspect, padInput, padC, List.filterMap,
      find_rectangles_with_morphology, find_rectangles_with_contour_merging,
      sortByAreaDesc, List.insertionSort, List.orderedInsert, List.take]
  · norm_num [rotationPadding, floorSqrt]
    decide
  · norm_num [rotationPaddingAsSpecified, ceilSqrt, floorSqrt]
    rw [show isqrt (Int.toNat 149) = 12 by decide]
    norm_num

/-- C7 (amended): the Rotation Normalizer's padding equals the truncated
(floor) square root of `width^2 + height^2` plus the fixed margin 20 — the
padding amount `m + 20` satisfies `m * m ≤ width^2 + height^2 < (m+1)^2`
on the floor of that sum — and the padding is applied symmetrically as a
constant black border of that size on all four sides of the source
image. -/
theorem rotation_padding_and_border (w h : ℚ) (img : Image) :
    rotationPadding w h = floorSqrt (w ^ 2 + h ^ 2) + 20 ∧
      floorSqrt (w ^ 2 + h ^ 2) * floorSqrt (w ^ 2 + h ^ 2) ≤ ⌊w ^ 2 + h ^ 2⌋.toNat ∧
      ⌊w ^ 2 + h ^ 2⌋.toNat
        < (floorSqrt (w ^ 2 + h ^ 2) + 1) * (floorSqrt (w ^ 2 + h ^ 2) + 1) ∧
      (copyMakeBorderConstant img (rotationPadding w h)).rows
        = img.rows + 2 * rotationPadding w h ∧
      (copyMakeBorderConstant img (rotationPadding w h)).cols
        = img.cols + 2 * rotationPadding w h ∧
      (∀ r c, r < rotationPadding w h ∨ rotationPadding w h + img.rows ≤ r ∨
          c < rotationPadding w h ∨ rotationPadding w h + img.cols ≤ c →
        (copyMakeBorderConstant img (rotationPadding w h)).pixel r c = blackPixel) ∧
      (∀ r c, r < img.rows → c < img.cols →
        (copyMakeBorderConstant img (rotationPadding w h)).pixel
          (rotationPadding w h + r) (rotationPadding w h + c) = img.pixel r c) := by
  refine ⟨rfl, isqrt_sq_le _, lt_succ_isqrt_sq _, rfl, rfl, ?_, ?_⟩
  · intro r c hout
    exact copyMakeBorder_border img _ r c hout
  · intro r c hr hc
    exact copyMakeBorder_interior img _ r c hr hc

/-- Witness for C7's amended theorem: padding a concrete 2-by-3 image with
the padding computed for a 7-by-10 rectangle puts a black pixel at the
corner and preserves an interior pixel. -/
theorem rotation_padding_and_border_witness :
    (copyMakeBorderConstant demoImage (rotationPadding 7 10)).pixel 0 0 = blackPixel ∧
      (copyMakeBorderConstant demoImage (rotationPadding 7 10)).pixel
        (rotationPadding 7 10 + 1) (rotationPadding 7 10 + 2) = demoImage.pixel 1 2 := by
  have h := rotation_padding_and_border 7 10 demoImage
  refine ⟨h.2.2.2.2.2.1 0 0 ?_, h.2.2.2.2.2.2 1 2 (by norm_num [demoImage])
    (by norm_num [demoImage])⟩
  left
  have h1 := h.1
  omega
